import Mathlib

set_option linter.unusedVariables false
set_option linter.unreachableTactic false
set_option linter.unusedTactic false

/-!
Shallow embedding of the Anchorless debt-payoff engine
(`Loan/utils/services.py`, `Loan/models.py`, `Payment/models.py`,
`PaymentSchedule/models.py`).

Currency is modeled in integer cents: every Django `DecimalField` with
`decimal_places=2` holds an exact multiple of 0.01, so additions,
subtractions, `min`/`max` and the `quantize(Decimal('0.01'))` calls on
already-2-decimal values are exact integer-cent operations.  Annual
interest rates are `DecimalField(max_digits=5, decimal_places=2)`
percentages, represented exactly as integer hundredths of a percent
(12.00% = 1200).  Python `Decimal` arithmetic (28 significant digits,
default rounding ROUND_HALF_EVEN) is idealized to exact rational
arithmetic followed by half-even rounding to cents; every concrete
input used below keeps the exact product far from a rounding boundary,
where the two agree.
-/

/-- Round the fraction `n / d` (with `d > 0`) to the nearest integer,
ties to even — the default rounding of Python `Decimal.quantize`
(ROUND_HALF_EVEN). -/
def roundHalfEven (n d : ℤ) : ℤ :=
  let f : ℤ := Int.fdiv n d
  let r2 : ℤ := 2 * (n - f * d)
  if r2 < d then f
  else if d < r2 then f + 1
  else if f % 2 = 0 then f else f + 1

/-- `services.py` 145–146 (also 394–395 and 598–599):
`interest_charge = (balance * ((rate/100)/12)).quantize(Decimal('0.01'))`.
In cents and hundredths of a percent this is exactly
`round(balCents * rateBp / 120000)` cents. -/
def interestCharge (balCents : ℤ) (rateBp : ℤ) : ℤ :=
  roundHalfEven (balCents * rateBp) 120000

/-- `DebtPlan.strategy` choices. -/
inductive Strategy
  | snowball
  | avalanche
deriving DecidableEq, Repr

/-- `Loan.models.Loan` (fields used by the engine).  `minimum_payment`
is nullable in the model; `0` encodes NULL — the service validation
`not loan.minimum_payment or loan.minimum_payment <= 0` rejects NULL
and nonpositive values alike, so the encoding is faithful on every
path the engine takes.  Creation order (`created_at`) is the loan's
position in `PState.loans`. -/
structure Loan where
  lid : ℕ
  principal_balance : ℤ
  remaining_balance : ℤ
  interest_rate : ℤ
  minimum_payment : ℤ
  payoff_order : Option ℕ
deriving DecidableEq, Repr

/-- `PaymentSchedule.models.LoanPaymentSchedule`. -/
structure LoanBreakdown where
  loan_id : ℕ
  payment_amount : ℤ
  interest_amount : ℤ
  principal_amount : ℤ
  remaining_balance : ℤ
  is_focus_loan : Bool
deriving DecidableEq, Repr

/-- `PaymentSchedule.models.PaymentSchedule` together with its
`loan_breakdowns` rows (owned children in the schema). -/
structure ScheduleMonth where
  month_number : ℕ
  total_payment : ℤ
  total_interest : ℤ
  total_principal : ℤ
  focus_loan : Option ℕ
  breakdowns : List LoanBreakdown
deriving DecidableEq, Repr

/-- `DebtPlan.models.DebtPlan` (fields used by the engine;
`projected_payoff_date` is date arithmetic and is out of scope). -/
structure DebtPlan where
  strategy : Strategy
  monthly_payment_budget : ℤ
  is_active : Bool
  total_interest_saved : ℤ
deriving DecidableEq, Repr

/-- `Payment.models.Payment` — exactly the persisted fields the model
declares.  The model declares NO `interest_paid`, `principal_paid`,
`balance_before_payment` or `payment_timing` columns; the first two
exist only as read-only `@property` methods recomputed from the loan's
current balance (see `payment_principal_paid` below). -/
structure PaymentRec where
  loan_id : ℕ
  amount : ℤ
  payment_schedule : Option ℕ
  is_extra_payment : Bool
  is_below_minimum : Bool
  month_number : ℕ
deriving DecidableEq, Repr

/-- The persistent state of one debt plan: the plan row, its loans (in
creation order, i.e. `created_at` ascending), its schedule months and
its payment events. -/
structure PState where
  plan : DebtPlan
  loans : List Loan
  schedule : List ScheduleMonth
  payments : List PaymentRec
deriving DecidableEq, Repr

/-- Stable insertion: `x` goes in front of the first element that is
not strictly below it, so elements comparing equal keep their original
relative order. -/
def insertStable (lt : α → α → Bool) (x : α) : List α → List α
  | [] => [x]
  | y :: ys => if lt y x then y :: insertStable lt x ys else x :: y :: ys

/-- Stable sort by a strict comparison — models Python's stable
`sorted` and SQL `ORDER BY` iteration. -/
def stableSort (lt : α → α → Bool) : List α → List α
  | [] => []
  | x :: xs => insertStable lt x (stableSort lt xs)

/-- Strict comparison for `ORDER BY payoff_order` (Postgres puts NULLs
last on ascending order); ties keep list order via `stableSort`. -/
def payoffLt (a b : Loan) : Bool :=
  match a.payoff_order, b.payoff_order with
  | some i, some j => i < j
  | some _, none => true
  | none, _ => false

/-- `Loan.objects...order_by('payoff_order')`. -/
def orderByPayoff (loans : List Loan) : List Loan :=
  stableSort payoffLt loans

/-- One loan with its working balance (`loan_balances[loan.id]` in the
source, kept next to the loan it belongs to). -/
structure SimItem where
  loan : Loan
  bal : ℤ
deriving DecidableEq, Repr

/-- Result of the first allocation pass: every working item paired
with the breakdown row built for it this month (`none` when the loan
was already paid off and skipped), the leftover focus extra, and the
three accumulated month totals. -/
structure FPOut where
  items : List (SimItem × Option LoanBreakdown)
  remExtra : ℤ
  totP : ℤ
  totI : ℤ
  totPr : ℤ
deriving Repr

/-- `services.py` 139–188: the minimum-payment pass.  The focus loan
gets `minimum + remaining_extra`, every other owing loan its minimum;
payments are capped at `balance + interest`; leftover focus extra is
captured for redistribution. -/
def firstPass (focusId : Option ℕ) : ℤ → List SimItem → FPOut
  | remExtra, [] => ⟨[], remExtra, 0, 0, 0⟩
  | remExtra, it :: rest =>
    if it.bal ≤ 0 then
      let o := firstPass focusId remExtra rest
      ⟨(it, none) :: o.items, o.remExtra, o.totP, o.totI, o.totPr⟩
    else
      let ic := interestCharge it.bal it.loan.interest_rate
      let isF : Bool := focusId == some it.loan.lid
      let payment := if isF then it.loan.minimum_payment + remExtra
                     else it.loan.minimum_payment
      let maxPay := it.bal + ic
      let actual := min payment maxPay
      let remExtra' := if isF then (if actual < payment then payment - actual else 0)
                       else remExtra
      let principal := actual - ic
      let newBal := max (it.bal - principal) 0
      let e : LoanBreakdown :=
        ⟨it.loan.lid, actual, ic, principal, newBal, isF⟩
      let o := firstPass focusId remExtra' rest
      ⟨(⟨it.loan, newBal⟩, some e) :: o.items, o.remExtra,
        o.totP + actual, o.totI + ic, o.totPr + principal⟩

/-- Result of the redistribution pass: updated items/breakdowns, the
remaining extra, and the total amount added this pass (the source adds
each `additional_payment` to the month totals as it goes; the total
added is accumulated here and added once, which sums identically). -/
structure RDOut where
  items : List (SimItem × Option LoanBreakdown)
  remExtra : ℤ
  added : ℤ
deriving Repr

/-- `services.py` 190–225: redistribution of leftover focus extra.
Faithful to the source, `max_additional` is computed from the
ALREADY-UPDATED working balance minus the principal already allocated
(`loan_balances` was overwritten with the post-payment balance in the
first pass), and the walk stops (`break`) once the leftover reaches
zero. -/
def redistribute : ℤ → List (SimItem × Option LoanBreakdown) → RDOut
  | extra, [] => ⟨[], extra, 0⟩
  | extra, (it, none) :: rest =>
    let o := redistribute extra rest
    ⟨(it, none) :: o.items, o.remExtra, o.added⟩
  | extra, (it, some e) :: rest =>
    if e.is_focus_loan then
      let o := redistribute extra rest
      ⟨(it, some e) :: o.items, o.remExtra, o.added⟩
    else if it.bal ≤ 0 then
      let o := redistribute extra rest
      ⟨(it, some e) :: o.items, o.remExtra, o.added⟩
    else
      let maxAdd := max (it.bal - e.principal_amount) 0
      let add := min extra maxAdd
      if 0 < add then
        let e' := { e with payment_amount := e.payment_amount + add,
                           principal_amount := e.principal_amount + add,
                           remaining_balance := e.remaining_balance - add }
        let it' : SimItem := ⟨it.loan, it.bal - add⟩
        if extra - add ≤ 0 then
          ⟨(it', some e') :: rest, extra - add, add⟩
        else
          let o := redistribute (extra - add) rest
          ⟨(it', some e') :: o.items, o.remExtra, o.added + add⟩
      else
        let o := redistribute extra rest
        ⟨(it, some e) :: o.items, o.remExtra, o.added⟩

/-- One simulated month: updated working items plus the persisted
`ScheduleMonth` row with its breakdowns. -/
structure MonthOut where
  items : List SimItem
  month : ScheduleMonth
deriving Repr

/-- `services.py` 125–251: one iteration of the month loop — focus
selection, first pass, optional redistribution, month row assembly. -/
def monthStep (extra : ℤ) (monthNo : ℕ) (items : List SimItem) : MonthOut :=
  let focusId := (items.find? fun it => 0 < it.bal).map (·.loan.lid)
  let fp := firstPass focusId extra items
  let rd := if 0 < fp.remExtra then redistribute fp.remExtra fp.items
            else ⟨fp.items, fp.remExtra, 0⟩
  { items := rd.items.map (·.1)
    month := { month_number := monthNo
               total_payment := fp.totP + rd.added
               total_interest := fp.totI
               total_principal := fp.totPr + rd.added
               focus_loan := focusId
               breakdowns := rd.items.filterMap (·.2) } }

/-- `services.py` 121–253 / 370–486: the month loop, shared verbatim by
`generate_payment_schedule` and `regenerate_schedule_from_month`.  The
loop runs while some working balance is positive and raises once the
month number passes 600.  `fuel` only makes the recursion structural:
callers pass 601, which `simLoop_fuel_sufficient` below proves can
never hit the fuel branch, so the source's control flow is unchanged.
Returns the generated months, the final working items, and the
accumulated `total_interest_paid`. -/
def simLoop (extra : ℤ) :
    ℕ → ℕ → List SimItem → ℤ → Except String (List ScheduleMonth × List SimItem × ℤ)
  | 0, monthNo, items, acc =>
    if items.any fun it => 0 < it.bal then
      if 600 < monthNo then
        .error "Payment schedule exceeds 50 years - check your inputs"
      else .error "simulation fuel exhausted"
    else .ok ([], items, acc)
  | fuel + 1, monthNo, items, acc =>
    if items.any fun it => 0 < it.bal then
      if 600 < monthNo then
        .error "Payment schedule exceeds 50 years - check your inputs"
      else
        let mo := monthStep extra monthNo items
        match simLoop extra fuel (monthNo + 1) mo.items (acc + mo.month.total_interest) with
        | .ok (ms, itF, accF) => .ok (mo.month :: ms, itF, accF)
        | .error e => .error e
    else .ok ([], items, acc)

/-- `services.py` 96–101 / 336–341: per-loan validation, first
offending loan wins, rate checked before minimum payment. -/
def validateLoans : List Loan → Option String
  | [] => none
  | l :: rest =>
    if l.interest_rate < 0 then some "Loan has negative interest rate"
    else if l.minimum_payment ≤ 0 then some "Loan has invalid minimum payment"
    else validateLoans rest

/-- Sum of an integer-valued projection over a list. -/
def sumBy (f : α → ℤ) : List α → ℤ
  | [] => 0
  | x :: xs => f x + sumBy f xs

/-- `services.py` 68–270 `generate_payment_schedule` (atomic: an error
leaves the pre-call state untouched).  Deletes the whole schedule,
takes the loans with positive `remaining_balance` in payoff order,
validates them, and simulates starting from the loans' CURRENT
`remaining_balance` (line 116) at month 1.  `projected_payoff_date`
(calendar arithmetic) and the best-effort PDF side effect are out of
scope.  Returns the new state and `month_number - 1`, the number of
months generated. -/
def generate_payment_schedule (s : PState) : Except String (PState × ℕ) :=
  let s0 : PState := { s with schedule := [] }
  let loans := orderByPayoff (s.loans.filter fun l => 0 < l.remaining_balance)
  if loans.isEmpty then
    .ok ({ s0 with plan := { s0.plan with is_active := false } }, 0)
  else
    match validateLoans loans with
    | some e => .error e
    | none =>
      let totalMin := sumBy (·.minimum_payment) loans
      if s.plan.monthly_payment_budget < totalMin then
        .error "Monthly budget is less than total minimum payments"
      else
        let extra := s.plan.monthly_payment_budget - totalMin
        let items := loans.map fun l => SimItem.mk l l.remaining_balance
        match simLoop extra 601 1 items 0 with
        | .error e => .error e
        | .ok (ms, _, acc) =>
          .ok ({ s0 with schedule := ms,
                         plan := { s0.plan with total_interest_saved := acc } },
               ms.length)

/-- `services.py` 305–503 `regenerate_schedule_from_month`: deletes
only the months with `month_number >= start_month`, seeds the running
interest with the preserved months' `total_interest`, and simulates
from the loans' current balances starting at `start_month`.  Returns
the new state and `month_number - start_month`. -/
def regenerate_schedule_from_month (s : PState) (start : ℕ) :
    Except String (PState × ℕ) :=
  let s0 : PState := { s with schedule := s.schedule.filter fun m => m.month_number < start }
  let loans := orderByPayoff (s.loans.filter fun l => 0 < l.remaining_balance)
  if loans.isEmpty then
    .ok ({ s0 with plan := { s0.plan with is_active := false } }, 0)
  else
    match validateLoans loans with
    | some e => .error e
    | none =>
      let totalMin := sumBy (·.minimum_payment) loans
      if s.plan.monthly_payment_budget < totalMin then
        .error "Monthly budget is less than total minimum payments"
      else
        let extra := s.plan.monthly_payment_budget - totalMin
        let items := loans.map fun l => SimItem.mk l l.remaining_balance
        let seed := sumBy (·.total_interest)
          (s0.schedule.filter fun m => m.month_number < start)
        match simLoop extra 601 start items seed with
        | .error e => .error e
        | .ok (ms, _, acc) =>
          .ok ({ s0 with schedule := s0.schedule ++ ms,
                         plan := { s0.plan with total_interest_saved := acc } },
               ms.length)

/-- Snowball comparison: ascending remaining balance; equal balances
are not `lt`, so `stableSort` keeps their incoming order. -/
def snowballLt (a b : Loan) : Bool :=
  a.remaining_balance < b.remaining_balance

/-- Avalanche comparison: `sorted(..., key=interest_rate, reverse=True)`
— descending rate; Python's `reverse=True` flips the comparison but
keeps equal elements in incoming order, exactly this strict test. -/
def avalancheLt (a b : Loan) : Bool :=
  b.interest_rate < a.interest_rate

/-- The `Loan.Meta` default ordering `['payoff_order', 'created_at']`
applied to the plan's loans (stored in creation order, so a stable
sort on `payoff_order` alone realizes the two-key ordering). -/
def metaOrdered (loans : List Loan) : List Loan :=
  stableSort payoffLt loans

/-- `enumerate(sorted_loans, start=1)`. -/
def assignRanks : ℕ → List Loan → List (ℕ × Loan)
  | _, [] => []
  | n, l :: rest => (n, l) :: assignRanks (n + 1) rest

/-- `Loan.objects.filter(debt_plan=..., remaining_balance__gt=0)`,
iterated in the model's default `['payoff_order', 'created_at']`
order. -/
def activeMeta (s : PState) : List Loan :=
  (metaOrdered s.loans).filter fun l => 0 < l.remaining_balance

/-- `sorted(loans, key=...)` by the plan's strategy: ascending
remaining balance (snowball) or descending interest rate (avalanche),
both stable. -/
def strategySorted (s : PState) : List Loan :=
  match s.plan.strategy with
  | .snowball => stableSort snowballLt (activeMeta s)
  | .avalanche => stableSort avalancheLt (activeMeta s)

/-- `services.py` 45–65 `recalculate_all_payoff_orders`: filter the
plan's loans to those with `remaining_balance > 0`, stable-sort by
strategy key, write ranks 1..N, then set `payoff_order = None` on
every loan with `remaining_balance == 0`.  Returns the updated state
and `len(sorted_loans)`. -/
def recalculate_all_payoff_orders (s : PState) : PState × ℕ :=
  let sorted := strategySorted s
  let ranks := assignRanks 1 sorted
  let loans' := s.loans.map fun l =>
    match ranks.find? (fun p => p.2.lid == l.lid) with
    | some p => { l with payoff_order := some p.1 }
    | none =>
      if l.remaining_balance == 0 then { l with payoff_order := none } else l
  ({ s with loans := loans' }, sorted.length)

/-- `services.py` 756–788 `check_if_plan_completed` (the completion
letter dispatch is a best-effort side effect, out of scope). -/
def check_if_plan_completed (s : PState) : PState × Bool :=
  if s.loans.isEmpty then (s, false)
  else if (s.loans.all fun l => l.remaining_balance == 0) && s.plan.is_active then
    ({ s with plan := { s.plan with is_active := false } }, true)
  else (s, false)

/-- `aggregate(Max('month_number')) or 0`. -/
def maxMonth : List ScheduleMonth → ℕ
  | [] => 0
  | m :: rest => max m.month_number (maxMonth rest)

/-- `services.py` 577–592: the expected payment for this loan/month —
the scheduled breakdown's `payment_amount` when one exists, else the
loan's minimum payment.  (In the source the month row may exist while
the loan breakdown does not; `payment_schedule` is then still set.) -/
def expected_payment_for (sched? : Option ScheduleMonth) (lid : ℕ) (minPay : ℤ) : ℤ :=
  match sched? with
  | some m =>
    match m.breakdowns.find? (fun b => b.loan_id == lid) with
    | some b => b.payment_amount
    | none => minPay
  | none => minPay

/-- `services.py` 619: `is_extra = amount > expected_payment if
expected_payment else amount > loan.minimum_payment` (Decimal 0 is
falsy). -/
def is_extra_payment_for (expected amount minPay : ℤ) : Bool :=
  if expected ≠ 0 then decide (expected < amount) else decide (minPay < amount)

/-- `services.py` 652: `deviation = abs(amount - expected_payment) if
expected_payment else Decimal('0')`. -/
def deviation_for (expected amount : ℤ) : ℤ :=
  if expected ≠ 0 then max (amount - expected) (expected - amount) else 0

/-- `services.py` 542–683 `record_payment`.  Modeled on the
explicit-`month_number` path (the date-derived branch is calendar
arithmetic); locking is the transaction boundary, which the
`Except`-shape captures: an error leaves the caller's state untouched.
`payment_timing` is not persisted (the model declares no such field)
and the interest/principal split the source passes to
`Payment.objects.create` targets read-only properties — the persisted
row carries exactly the model's declared fields (see `PaymentRec`). -/
def record_payment (s : PState) (lid : ℕ) (amount : ℤ) (month_number : ℕ)
    (skip_recalculation : Bool) : Except String (PState × PaymentRec × Bool) :=
  match s.loans.find? (fun l => l.lid == lid) with
  | none => .error "Loan does not belong to this debt plan"
  | some loan =>
    if amount ≤ 0 then .error "Payment amount must be positive"
    else if maxMonth s.schedule < month_number then
      .error "Cannot make payments for a month beyond the schedule"
    else
      let sched? := s.schedule.find? fun m => m.month_number == month_number
      let expected := expected_payment_for sched? lid loan.minimum_payment
      let bbp := loan.remaining_balance
      let ic := interestCharge bbp loan.interest_rate
      if amount < ic then
        .error "Payment is less than the interest charge"
      else if bbp + ic < amount then
        .error "Payment exceeds remaining balance plus interest"
      else
        let principal := amount - ic
        let isExtra : Bool := is_extra_payment_for expected amount loan.minimum_payment
        let isBelow : Bool := decide (amount < loan.minimum_payment)
        let pay : PaymentRec :=
          { loan_id := lid, amount := amount,
            payment_schedule := sched?.map (·.month_number),
            is_extra_payment := isExtra, is_below_minimum := isBelow,
            month_number := month_number }
        let newBal := max (bbp - principal) 0
        let s1 : PState :=
          { s with loans := s.loans.map fun l =>
              if l.lid == lid then { l with remaining_balance := newBal } else l }
        let deviation := deviation_for expected amount
        let shouldRecalc : Bool := !skip_recalculation &&
          (decide (1000 < deviation) || decide (newBal = 0) || isBelow || isExtra)
        if shouldRecalc then
          let s2 := (recalculate_all_payoff_orders s1).1
          match regenerate_schedule_from_month s2 month_number with
          | .error e => .error e
          | .ok (s3, _) =>
            let link := match s3.schedule.find? (fun m => m.month_number == month_number) with
              | some m =>
                if m.breakdowns.any (fun b => b.loan_id == lid) then some month_number
                else none
              | none => none
            let pay' := { pay with payment_schedule := link }
            let s4 := (check_if_plan_completed s3).1
            .ok ({ s4 with payments := s4.payments ++ [pay'] }, pay', true)
        else
          .ok ({ s1 with payments := s1.payments ++ [pay] }, pay, false)

/-- The state `record_payment` leaves behind: the new state on success,
the caller's state on error (`@transaction.atomic` rollback). -/
def record_payment_state (s : PState) (lid : ℕ) (amount : ℤ) (month_number : ℕ)
    (skip_recalculation : Bool) : PState :=
  match record_payment s lid amount month_number skip_recalculation with
  | .ok (s', _, _) => s'
  | .error _ => s

/-- `Payment.models.Payment.principal_paid` (lines 127–135): a
read-only property recomputed on every access from the owning loan's
CURRENT `remaining_balance`. -/
def payment_principal_paid (currentBalance : ℤ) (rate : ℤ) (amount : ℤ) : ℤ :=
  max (amount - interestCharge currentBalance rate) 0

/-- `Payment.models.Payment.interest_paid` (lines 137–140). -/
def payment_interest_paid (currentBalance : ℤ) (rate : ℤ) (amount : ℤ) : ℤ :=
  amount - payment_principal_paid currentBalance rate amount

/-- `services.py` 594–609: the split computed at recording time, on the
balance BEFORE the payment. -/
def recordedInterest (bbp : ℤ) (rate : ℤ) : ℤ :=
  interestCharge bbp rate

/-- `services.py` 609: `principal_paid = amount - interest_charge`. -/
def recordedPrincipal (bbp : ℤ) (rate : ℤ) (amount : ℤ) : ℤ :=
  amount - interestCharge bbp rate

/-- Modelled from the spec (§4.4 step 8): the variant of
`record_payment` whose recalculation step runs the Partial Regenerator
"starting at max(last-paid month + 1, current-calendar month)".  The
source has no such computation — it regenerates from the payment's
`month_number` — so this definition exists only to be compared with
`record_payment` above. -/
def record_payment_specStart (s : PState) (lid : ℕ) (amount : ℤ) (month_number : ℕ)
    (currentMonth : ℕ) (skip_recalculation : Bool) :
    Except String (PState × PaymentRec × Bool) :=
  match s.loans.find? (fun l => l.lid == lid) with
  | none => .error "Loan does not belong to this debt plan"
  | some loan =>
    if amount ≤ 0 then .error "Payment amount must be positive"
    else if maxMonth s.schedule < month_number then
      .error "Cannot make payments for a month beyond the schedule"
    else
      let sched? := s.schedule.find? fun m => m.month_number == month_number
      let expected := expected_payment_for sched? lid loan.minimum_payment
      let bbp := loan.remaining_balance
      let ic := interestCharge bbp loan.interest_rate
      if amount < ic then
        .error "Payment is less than the interest charge"
      else if bbp + ic < amount then
        .error "Payment exceeds remaining balance plus interest"
      else
        let principal := amount - ic
        let isExtra : Bool := is_extra_payment_for expected amount loan.minimum_payment
        let isBelow : Bool := decide (amount < loan.minimum_payment)
        let pay : PaymentRec :=
          { loan_id := lid, amount := amount,
            payment_schedule := sched?.map (·.month_number),
            is_extra_payment := isExtra, is_below_minimum := isBelow,
            month_number := month_number }
        let newBal := max (bbp - principal) 0
        let s1 : PState :=
          { s with loans := s.loans.map fun l =>
              if l.lid == lid then { l with remaining_balance := newBal } else l }
        let deviation := deviation_for expected amount
        let shouldRecalc : Bool := !skip_recalculation &&
          (decide (1000 < deviation) || decide (newBal = 0) || isBelow || isExtra)
        if shouldRecalc then
          let s2 := (recalculate_all_payoff_orders s1).1
          match regenerate_schedule_from_month s2 (max (month_number + 1) currentMonth) with
          | .error e => .error e
          | .ok (s3, _) =>
            let link := match s3.schedule.find? (fun m => m.month_number == month_number) with
              | some m =>
                if m.breakdowns.any (fun b => b.loan_id == lid) then some month_number
                else none
              | none => none
            let pay' := { pay with payment_schedule := link }
            let s4 := (check_if_plan_completed s3).1
            .ok ({ s4 with payments := s4.payments ++ [pay'] }, pay', true)
        else
          .ok ({ s1 with payments := s1.payments ++ [pay] }, pay, false)

/-! ### Observers and concrete states used by the claim theorems -/

/-- Did the operation succeed? -/
def isOkE (r : Except String (PState × ℕ)) : Bool :=
  match r with
  | .ok _ => true
  | .error _ => false

/-- Schedule produced by a successful generate/regenerate ([] on error). -/
def okSchedule (r : Except String (PState × ℕ)) : List ScheduleMonth :=
  match r with
  | .ok p => p.1.schedule
  | .error _ => []

/-- Resulting state of a generate/regenerate, falling back to the
pre-call state on error (the transaction rolls back). -/
def okStateOr (s : PState) (r : Except String (PState × ℕ)) : PState :=
  match r with
  | .ok p => p.1
  | .error _ => s

/-- `total_interest_saved` reported by a successful run (-1 on error,
an impossible interest value). -/
def okPlanInterest (r : Except String (PState × ℕ)) : ℤ :=
  match r with
  | .ok p => p.1.plan.total_interest_saved
  | .error _ => -1

/-- Did `record_payment` succeed? -/
def rpIsOk (r : Except String (PState × PaymentRec × Bool)) : Bool :=
  match r with
  | .ok _ => true
  | .error _ => false

/-- State left by `record_payment`, pre-call state on error. -/
def rpState (s : PState) (r : Except String (PState × PaymentRec × Bool)) : PState :=
  match r with
  | .ok t => t.1
  | .error _ => s

/-- Budget $500.00/month, snowball.  Loan A: $30.00 at 0%, minimum
$25.00, rank 1.  Loan B: $100.00 at 0%, minimum $50.00, rank 2. -/
def loanA30 : Loan := ⟨1, 3000, 3000, 0, 2500, some 1⟩

/-- Loan B of the redistribution scenario. -/
def loanB100 : Loan := ⟨2, 10000, 10000, 0, 5000, some 2⟩

/-- The redistribution failing input (claims C1 and C3). -/
def sRedist : PState := ⟨⟨.snowball, 50000, true, 0⟩, [loanA30, loanB100], [], []⟩

/-- A loan whose `remaining_balance` ($500.00) is below its
`principal_balance` ($1000.00): a payment has already been recorded. -/
def loanHalfPaid : Loan := ⟨1, 100000, 50000, 0, 50000, some 1⟩

/-- The C4 failing input: plan with one half-paid loan. -/
def sHalfPaid : PState := ⟨⟨.snowball, 50000, true, 0⟩, [loanHalfPaid], [], []⟩

/-- Loan $1000.00 at 12%, minimum $600.00. -/
def loanK : Loan := ⟨1, 100000, 100000, 1200, 60000, some 1⟩

/-- The C7 scenario: budget $600.00, one loan; generation yields two
months with interest $10.00 and $4.10. -/
def sK : PState := ⟨⟨.snowball, 60000, true, 0⟩, [loanK], [], []⟩

/-- State after a full generate on `sK` (`sK` itself if it failed,
which `c7_counterexample` proves is not the case). -/
def sKgen : PState := okStateOr sK (generate_payment_schedule sK)

/-- Tiny focus loan: $1.00 at 0%, minimum $1.00, rank 1. -/
def loanTiny : Loan := ⟨1, 100, 100, 0, 100, some 1⟩

/-- Negative-amortization loan: $10.00 at 100% (interest $0.83/month)
with the model-minimum payment $0.01, rank 2. -/
def loanNegAm : Loan := ⟨2, 1000, 1000, 10000, 1, some 2⟩

/-- The C10 failing input: a huge budget ($5000.00) makes the focus
loan pay off instantly and the redistribution pass overshoot loan 2's
balance (its absorption cap is computed off the already-updated
balance), driving it negative. -/
def sNegAm : PState := ⟨⟨.snowball, 500000, true, 0⟩, [loanTiny, loanNegAm], [], []⟩

/-- Created FIRST: equal balance $100.00, currently ranked 2. -/
def loanTieFirst : Loan := ⟨1, 10000, 10000, 500, 500, some 2⟩

/-- Created SECOND: equal balance $100.00, currently ranked 1. -/
def loanTieSecond : Loan := ⟨2, 10000, 10000, 700, 500, some 1⟩

/-- The C9 tie-break input: two loans with equal remaining balances
whose current payoff ranks are opposite to their creation order
(possible after earlier payments changed the balances). -/
def sTie : PState := ⟨⟨.snowball, 2000, true, 0⟩, [loanTieFirst, loanTieSecond], [], []⟩

/-- Loan $1000.00 at 0%, minimum $100.00, rank 1. -/
def loanTen : Loan := ⟨1, 100000, 100000, 0, 10000, some 1⟩

/-- The C8 scenario before generation: budget $100.00, one loan. -/
def sTen : PState := ⟨⟨.snowball, 10000, true, 0⟩, [loanTen], [], []⟩

/-- State after a full generate on `sTen`: ten scheduled months. -/
def sTenGen : PState := okStateOr sTen (generate_payment_schedule sTen)

/-- Loan $1000.00 at 12%, minimum $100.00, rank 1 (C6 scenario). -/
def loanC6 : Loan := ⟨1, 100000, 100000, 1200, 10000, some 1⟩

/-- A consistent month-1 schedule row for `loanC6`. -/
def monthC6 : ScheduleMonth := ⟨1, 10000, 1000, 9000, some 1, [⟨1, 10000, 1000, 9000, 91000, true⟩]⟩

/-- The C6 scenario: one loan, one scheduled month, no payments yet. -/
def sSplit : PState := ⟨⟨.snowball, 10000, true, 0⟩, [loanC6], [monthC6], []⟩

/-- The breakdown rows collected during a pass. -/
def passEntries (items : List (SimItem × Option LoanBreakdown)) : List LoanBreakdown :=
  items.filterMap (·.2)

/-- The per-month bookkeeping invariants of one `ScheduleMonth` row:
interest + principal = payment for the month totals, the breakdowns
sum to the month totals component-wise, and each breakdown satisfies
interest + principal = payment. -/
def monthOk (m : ScheduleMonth) : Prop :=
  m.total_interest + m.total_principal = m.total_payment ∧
  sumBy (·.payment_amount) m.breakdowns = m.total_payment ∧
  sumBy (·.interest_amount) m.breakdowns = m.total_interest ∧
  sumBy (·.principal_amount) m.breakdowns = m.total_principal ∧
  ∀ b ∈ m.breakdowns, b.interest_amount + b.principal_amount = b.payment_amount

instance (m : ScheduleMonth) : Decidable (monthOk m) := by
  unfold monthOk
  infer_instance

instance instDecEqExceptGen {ε α : Type} [DecidableEq ε] [DecidableEq α] :
    DecidableEq (Except ε α) := fun a b =>
  match a, b with
  | .error e, .error e' =>
    if h : e = e' then isTrue (h ▸ rfl) else isFalse (fun hc => h (Except.error.inj hc))
  | .error _, .ok _ => isFalse (fun hc => Except.noConfusion hc)
  | .ok _, .error _ => isFalse (fun hc => Except.noConfusion hc)
  | .ok x, .ok y =>
    if h : x = y then isTrue (h ▸ rfl) else isFalse (fun hc => h (Except.ok.inj hc))

/-- A default month used only to select elements from concrete lists. -/
def emptyMonth : ScheduleMonth := ⟨0, 0, 0, 0, none, []⟩

/-- PaymentRec returned by `record_payment` (a dummy on error). -/
def rpPay (r : Except String (PState × PaymentRec × Bool)) : PaymentRec :=
  match r with
  | .ok t => t.2.1
  | .error _ => ⟨0, 0, none, false, false, 0⟩

/-- Recalculation flag returned by `record_payment` (false on error). -/
def rpFlag (r : Except String (PState × PaymentRec × Bool)) : Bool :=
  match r with
  | .ok t => t.2.2
  | .error _ => false


/-! ### Closed theorems: failing inputs and counterexamples -/

/-- C1: FAILING INPUT for the redistribution claim.  On `sRedist`
(budget $500.00) the focus loan A pays off with $420.00 of extra left
over, yet non-focus loan B — still owing $50.00 after its minimum —
absorbs none of it: the source computes `max_additional` from the
already-updated balance minus the principal already allocated, which
is zero here.  Month 1 (not the last month) thus leaves leftover extra
unapplied while a non-focus owing loan could still absorb it, contrary
to the claim and to the function's own docstring. -/
theorem c1_redistribution_drops_leftover :
    isOkE (generate_payment_schedule sRedist) = true ∧
    (okSchedule (generate_payment_schedule sRedist)).length = 2 ∧
    (∃ m ∈ okSchedule (generate_payment_schedule sRedist),
      m.month_number = 1 ∧
      m.total_payment + 42000 = sRedist.plan.monthly_payment_budget ∧
      ∃ b ∈ m.breakdowns,
        b.is_focus_loan = false ∧ b.payment_amount = 5000 ∧ 0 < b.remaining_balance) := by
  refine ⟨by decide, by decide, ?_⟩
  decide

/-- C3: FAILING INPUT for "every month except possibly the last pays
the full budget".  On `sRedist` the generated schedule has two months
with total payments $80.00 and $50.00 against a budget of $500.00: the
first (non-final) month does not consume the budget — the same input
also violates the code's own `validate_schedule_integrity` assert. -/
theorem c3_budget_not_consumed :
    isOkE (generate_payment_schedule sRedist) = true ∧
    (okSchedule (generate_payment_schedule sRedist)).map (·.total_payment) = [8000, 5000] ∧
    sRedist.plan.monthly_payment_budget = 50000 := by
  decide

/-- C4: COUNTEREXAMPLE.  `generate_payment_schedule` simulates from
the loans' current `remaining_balance` (services.py line 116), not the
original `principal_balance`: on `sHalfPaid` the generated months'
total principal sums to $500.00 while the plan's principal balances
sum to $1000.00. -/
theorem c4_counterexample :
    isOkE (generate_payment_schedule sHalfPaid) = true ∧
    sumBy (·.total_principal) (okSchedule (generate_payment_schedule sHalfPaid)) = 50000 ∧
    sumBy (·.principal_balance) sHalfPaid.loans = 100000 ∧
    sumBy (·.total_principal) (okSchedule (generate_payment_schedule sHalfPaid)) ≠
      sumBy (·.principal_balance) sHalfPaid.loans := by
  decide

/-- C6: FAILING INPUT for the stored-split claim.  Recording a $100.00
payment on `loanC6` (balance $1000.00 at 12%) computes interest $10.00
and principal $90.00 and updates the balance to $910.00; but the
`Payment` model stores neither value — `principal_paid` is a property
recomputed from the loan's CURRENT balance, so reading it after the
update returns $90.90, not the $90.00 computed at recording time. -/
theorem c6_split_not_permanent :
    rpIsOk (record_payment sSplit 1 10000 1 true) = true ∧
    (rpState sSplit (record_payment sSplit 1 10000 1 true)).loans.map
      (·.remaining_balance) = [91000] ∧
    recordedPrincipal 100000 1200 10000 = 9000 ∧
    payment_principal_paid 91000 1200 10000 = 9090 ∧
    payment_principal_paid 91000 1200 10000 ≠ recordedPrincipal 100000 1200 10000 := by
  decide

/-- C7: COUNTEREXAMPLE to "equal to what a full from-scratch
regenerate would have produced".  After generating `sK`'s schedule
(cumulative interest $14.10), `regenerate_schedule_from_month(·, 2)`
on the resulting state reports $24.10 (preserved month 1's $10.00 plus
a fresh full simulation from the unchanged balances), while a full
from-scratch regenerate on the very same state reports $14.10. -/
theorem c7_counterexample :
    isOkE (generate_payment_schedule sK) = true ∧
    okPlanInterest (generate_payment_schedule sK) = 1410 ∧
    okPlanInterest (regenerate_schedule_from_month sKgen 2) = 2410 ∧
    okPlanInterest (generate_payment_schedule sKgen) = 1410 ∧
    okPlanInterest (regenerate_schedule_from_month sKgen 2) ≠
      okPlanInterest (generate_payment_schedule sKgen) := by
  decide

/-- C8: COUNTEREXAMPLE to the claimed regeneration start month.  On
`sTenGen` (ten scheduled months), an extra $200.00 payment recorded
for month 1 (current calendar month 1) triggers recalculation.  The
source regenerates from the payment's month 1, replacing it (8 months,
month-1 balance $700.00); under the claim's start
`max(last-paid month + 1, current month) = 2`, month 1 would be
preserved (9 months, month-1 balance $900.00).  The two disagree. -/
theorem c8_counterexample :
    rpIsOk (record_payment sTenGen 1 20000 1 false) = true ∧
    rpIsOk (record_payment_specStart sTenGen 1 20000 1 1 false) = true ∧
    (rpState sTenGen (record_payment sTenGen 1 20000 1 false)).schedule.length = 8 ∧
    (rpState sTenGen (record_payment_specStart sTenGen 1 20000 1 1 false)).schedule.length = 9 ∧
    (rpState sTenGen (record_payment sTenGen 1 20000 1 false)).schedule ≠
      (rpState sTenGen (record_payment_specStart sTenGen 1 20000 1 1 false)).schedule := by
  decide

/-- C9: COUNTEREXAMPLE to creation-order tie-breaking.  `sTie` holds
two loans with equal remaining balances; the loan created FIRST
currently has rank 2.  Because the queryset iterates in the model's
default `['payoff_order', 'created_at']` order, the stable sort keeps
the later-created loan (current rank 1) first, and it receives rank 1
— under the claimed creation-order tie-break the first-created loan
would have received rank 1. -/
theorem c9_counterexample :
    sTie.loans.map (·.remaining_balance) = [10000, 10000] ∧
    sTie.plan.strategy = Strategy.snowball ∧
    (recalculate_all_payoff_orders sTie).1.loans.map (fun l => (l.lid, l.payoff_order)) =
      [(1, some 2), (2, some 1)] := by
  decide

/-- C10: COUNTEREXAMPLE to "all loan balances reach zero".  On
`sNegAm` the simulation finishes in one month without error, but the
negative-amortization loan's balance ends at -$0.82 (the
redistribution pass, whose cap is computed off the already-updated
balance, overshoots): the loop stops because no balance is positive,
not because every balance reached zero. -/
theorem c10_counterexample :
    isOkE (generate_payment_schedule sNegAm) = true ∧
    (okSchedule (generate_payment_schedule sNegAm)).length = 1 ∧
    (∃ m ∈ okSchedule (generate_payment_schedule sNegAm),
      ∃ b ∈ m.breakdowns, b.remaining_balance < 0) := by
  refine ⟨by decide, by decide, ?_⟩
  decide

/-! ### Pass and loop invariants -/

/-- All bookkeeping identities of the first pass at once: totals are
consistent, they equal the sums over the collected breakdowns, each
breakdown satisfies interest + principal = payment, and the total
principal equals the drop in working balances. -/
theorem firstPass_inv (focusId : Option ℕ) :
    ∀ (items : List SimItem) (extra : ℤ),
      (firstPass focusId extra items).totP
          = (firstPass focusId extra items).totI + (firstPass focusId extra items).totPr ∧
      sumBy (·.payment_amount) (passEntries (firstPass focusId extra items).items)
          = (firstPass focusId extra items).totP ∧
      sumBy (·.interest_amount) (passEntries (firstPass focusId extra items).items)
          = (firstPass focusId extra items).totI ∧
      sumBy (·.principal_amount) (passEntries (firstPass focusId extra items).items)
          = (firstPass focusId extra items).totPr ∧
      (∀ e ∈ passEntries (firstPass focusId extra items).items,
          e.interest_amount + e.principal_amount = e.payment_amount) ∧
      sumBy (fun p => p.1.bal) (firstPass focusId extra items).items
          = sumBy (·.bal) items - (firstPass focusId extra items).totPr
  | [], extra => by
    simp [firstPass, passEntries, sumBy]
  | it :: rest, extra => by
    by_cases hb : it.bal ≤ 0
    · have ih := firstPass_inv focusId rest extra
      obtain ⟨ih1, ih2, ih3, ih4, ih5, ih6⟩ := ih
      simp only [firstPass, if_pos hb, passEntries, List.filterMap_cons, sumBy] at *
      refine ⟨ih1, ih2, ih3, ih4, ih5, ?_⟩
      omega
    · have hkey := fun re => firstPass_inv focusId rest re
      simp only [firstPass, if_neg hb]
      generalize (focusId == some it.loan.lid) = isF
      generalize hic : interestCharge it.bal it.loan.interest_rate = ic
      generalize hpay : (if isF = true then it.loan.minimum_payment + extra
                         else it.loan.minimum_payment) = payment
      generalize hact : min payment (it.bal + ic) = actual
      generalize hre : (if isF = true then (if actual < payment then payment - actual else 0)
                        else extra) = re
      obtain ⟨ih1, ih2, ih3, ih4, ih5, ih6⟩ := hkey re
      simp only [passEntries, List.filterMap_cons, sumBy] at *
      refine ⟨by omega, by omega, by omega, by omega, ?_, by omega⟩
      intro e he
      rcases List.mem_cons.mp he with h | h
      · subst h
        simp only []
        omega
      · exact ih5 e h

/-- Bookkeeping identities of the redistribution pass: the total
amount added lands equally on the payment and principal sums, interest
sums are untouched, the per-entry identity is preserved, and working
balances drop by exactly the amount added. -/
theorem redistribute_inv :
    ∀ (items : List (SimItem × Option LoanBreakdown)) (extra : ℤ),
      sumBy (·.payment_amount) (passEntries (redistribute extra items).items)
          = sumBy (·.payment_amount) (passEntries items) + (redistribute extra items).added ∧
      sumBy (·.interest_amount) (passEntries (redistribute extra items).items)
          = sumBy (·.interest_amount) (passEntries items) ∧
      sumBy (·.principal_amount) (passEntries (redistribute extra items).items)
          = sumBy (·.principal_amount) (passEntries items) + (redistribute extra items).added ∧
      ((∀ e ∈ passEntries items, e.interest_amount + e.principal_amount = e.payment_amount) →
        ∀ e ∈ passEntries (redistribute extra items).items,
          e.interest_amount + e.principal_amount = e.payment_amount) ∧
      sumBy (fun p => p.1.bal) (redistribute extra items).items
          = sumBy (fun p => p.1.bal) items - (redistribute extra items).added
  | [], extra => by
    simp [redistribute, passEntries, sumBy]
  | (it, none) :: rest, extra => by
    obtain ⟨ih1, ih2, ih3, ih4, ih5⟩ := redistribute_inv rest extra
    simp only [redistribute, passEntries, List.filterMap_cons, sumBy] at *
    exact ⟨by omega, by omega, by omega, ih4, by omega⟩
  | (it, some e) :: rest, extra => by
    obtain ⟨eid, ep, ei, epr, er, ef⟩ := e
    by_cases hf : ef = true
    · obtain ⟨ih1, ih2, ih3, ih4, ih5⟩ := redistribute_inv rest extra
      subst hf
      simp only [redistribute, eq_self_iff_true, if_true, passEntries,
        List.filterMap_cons, sumBy] at *
      refine ⟨by first | trivial | omega, by first | trivial | omega, by first | trivial | omega, ?_, by first | trivial | omega⟩
      intro hall x hx
      rcases List.mem_cons.mp hx with h | h
      · rw [h]; exact hall _ (List.mem_cons_self _ _)
      · exact ih4 (fun y hy => hall y (List.mem_cons_of_mem _ hy)) x h
    · replace hf : ef = false := by
        cases ef
        · rfl
        · exact absurd rfl hf
      subst hf
      by_cases hb : it.bal ≤ 0
      · obtain ⟨ih1, ih2, ih3, ih4, ih5⟩ := redistribute_inv rest extra
        simp only [redistribute, Bool.false_eq_true, if_false, if_pos hb, passEntries,
          List.filterMap_cons, sumBy] at *
        refine ⟨by first | trivial | omega, by first | trivial | omega, by first | trivial | omega, ?_, by first | trivial | omega⟩
        intro hall x hx
        rcases List.mem_cons.mp hx with h | h
        · rw [h]; exact hall _ (List.mem_cons_self _ _)
        · exact ih4 (fun y hy => hall y (List.mem_cons_of_mem _ hy)) x h
      · simp only [redistribute, Bool.false_eq_true, if_false, if_neg hb, passEntries,
          List.filterMap_cons, sumBy]
        generalize hadd : min extra (max (it.bal - epr) 0) = add
        by_cases hpos : 0 < add
        · rw [if_pos hpos]
          by_cases hbrk : extra - add ≤ 0
          · rw [if_pos hbrk]
            simp only [passEntries, List.filterMap_cons, sumBy]
            refine ⟨by first | trivial | omega, by first | trivial | omega, by first | trivial | omega, ?_, by first | trivial | omega⟩
            intro hall x hx
            rcases List.mem_cons.mp hx with h | h
            · rw [h]
              have := hall _ (List.mem_cons_self _ _)
              simp only [] at this ⊢
              omega
            · exact hall x (List.mem_cons_of_mem _ h)
          · rw [if_neg hbrk]
            obtain ⟨ih1, ih2, ih3, ih4, ih5⟩ := redistribute_inv rest (extra - add)
            simp only [passEntries, List.filterMap_cons, sumBy] at *
            refine ⟨by first | trivial | omega, by first | trivial | omega, by first | trivial | omega, ?_, by first | trivial | omega⟩
            intro hall x hx
            rcases List.mem_cons.mp hx with h | h
            · rw [h]
              have := hall _ (List.mem_cons_self _ _)
              simp only [] at this ⊢
              omega
            · exact ih4 (fun y hy => hall y (List.mem_cons_of_mem _ hy)) x h
        · rw [if_neg hpos]
          obtain ⟨ih1, ih2, ih3, ih4, ih5⟩ := redistribute_inv rest extra
          simp only [passEntries, List.filterMap_cons, sumBy] at *
          refine ⟨by first | trivial | omega, by first | trivial | omega, by first | trivial | omega, ?_, by first | trivial | omega⟩
          intro hall x hx
          rcases List.mem_cons.mp hx with h | h
          · rw [h]; exact hall _ (List.mem_cons_self _ _)
          · exact ih4 (fun y hy => hall y (List.mem_cons_of_mem _ hy)) x h

/-- Summing a projection over a mapped list. -/
theorem sumBy_map (f : β → ℤ) (g : α → β) :
    ∀ l : List α, sumBy f (l.map g) = sumBy (fun a => f (g a)) l
  | [] => rfl
  | x :: xs => by simp [sumBy, sumBy_map f g xs]

/-- One simulated month satisfies the bookkeeping invariants, carries
its month number, and decreases the working balances by exactly its
total principal. -/
theorem monthStep_inv (extra : ℤ) (monthNo : ℕ) (items : List SimItem) :
    monthOk (monthStep extra monthNo items).month ∧
    (monthStep extra monthNo items).month.month_number = monthNo ∧
    sumBy (·.bal) (monthStep extra monthNo items).items
      = sumBy (·.bal) items - (monthStep extra monthNo items).month.total_principal := by
  obtain ⟨f1, f2, f3, f4, f5, f6⟩ :=
    firstPass_inv ((items.find? fun it => 0 < it.bal).map (·.loan.lid)) items extra
  by_cases h :
      0 < (firstPass ((items.find? fun it => 0 < it.bal).map (·.loan.lid)) extra items).remExtra
  · obtain ⟨r1, r2, r3, r4, r5⟩ :=
      redistribute_inv
        (firstPass ((items.find? fun it => 0 < it.bal).map (·.loan.lid)) extra items).items
        (firstPass ((items.find? fun it => 0 < it.bal).map (·.loan.lid)) extra items).remExtra
    simp only [monthStep, if_pos h, monthOk, passEntries, sumBy_map] at *
    exact ⟨⟨by omega, by omega, by omega, by omega, r4 f5⟩, by trivial, by omega⟩
  · simp only [monthStep, if_neg h, monthOk, passEntries, sumBy_map] at *
    exact ⟨⟨by omega, by omega, by omega, by omega, f5⟩, by trivial, by omega⟩

/-- The loop invariant of the shared month loop: on success every
produced month satisfies `monthOk`, the accumulated interest is the
seed plus the months' total interest, working balances drop by the
months' total principal, no final balance is positive, month numbers
run upward from the starting month and never exceed 600, the number of
produced months respects the ceiling, and month numbers strictly
increase. -/
theorem simLoop_inv (extra : ℤ) :
    ∀ (fuel monthNo : ℕ) (items : List SimItem) (acc : ℤ)
      (ms : List ScheduleMonth) (itF : List SimItem) (accF : ℤ),
      simLoop extra fuel monthNo items acc = .ok (ms, itF, accF) →
      (∀ m ∈ ms, monthOk m) ∧
      accF = acc + sumBy (·.total_interest) ms ∧
      sumBy (·.bal) itF = sumBy (·.bal) items - sumBy (·.total_principal) ms ∧
      (∀ it ∈ itF, it.bal ≤ 0) ∧
      (∀ m ∈ ms, monthNo ≤ m.month_number ∧ m.month_number ≤ 600) ∧
      (ms = [] ∨ monthNo + ms.length ≤ 601) ∧
      ms.Pairwise (fun a b => a.month_number < b.month_number)
  | 0, monthNo, items, acc, ms, itF, accF => by
    intro h
    unfold simLoop at h
    by_cases hany : items.any (fun it => 0 < it.bal)
    · rw [if_pos hany] at h
      split at h <;> exact absurd h (by simp)
    · rw [if_neg hany] at h
      injection h with h'
      injection h' with h1 h2
      injection h2 with h2 h3
      subst h1; subst h2; subst h3
      simp only [List.any_eq_true, decide_eq_true_eq] at hany
      push_neg at hany
      refine ⟨by simp, by simp [sumBy], by simp [sumBy], ?_, by simp, Or.inl rfl, by simp⟩
      intro it hit
      have := hany it hit
      omega
  | fuel + 1, monthNo, items, acc, ms, itF, accF => by
    intro h
    unfold simLoop at h
    by_cases hany : items.any (fun it => 0 < it.bal)
    · rw [if_pos hany] at h
      by_cases hceil : 600 < monthNo
      · rw [if_pos hceil] at h
        exact absurd h (by simp)
      · rw [if_neg hceil] at h
        obtain ⟨mi1, mi2, mi3⟩ := monthStep_inv extra monthNo items
        cases hrec : simLoop extra fuel (monthNo + 1) (monthStep extra monthNo items).items
            (acc + (monthStep extra monthNo items).month.total_interest) with
        | error e =>
          simp only [] at h
          rw [hrec] at h
          exact absurd h (by simp)
        | ok t =>
          obtain ⟨ms', itF', accF'⟩ := t
          simp only [] at h
          rw [hrec] at h
          injection h with h'
          injection h' with h1 h2
          injection h2 with h2 h3
          obtain ⟨ih1, ih2, ih3, ih4, ih5, ih6, ih7⟩ :=
            simLoop_inv extra fuel (monthNo + 1) (monthStep extra monthNo items).items
              (acc + (monthStep extra monthNo items).month.total_interest) ms' itF' accF' hrec
          subst h1; subst h2; subst h3
      
          refine ⟨?_, ?_, ?_, ih4, ?_, ?_, ?_⟩
          · intro m hm
            rcases List.mem_cons.mp hm with h | h
            · rw [h]; exact mi1
            · exact ih1 m h
          · simp only [sumBy] at *
            omega
          · simp only [sumBy] at *
            omega
          · intro m hm
            rcases List.mem_cons.mp hm with h | h
            · rw [h]; omega
            · have := ih5 m h
              omega
          · right
            simp only [List.length_cons]
            rcases ih6 with h | h
            · subst h
              simp
              omega
            · omega
          · refine List.Pairwise.cons ?_ ih7
            intro m hm
            have := (ih5 m hm).1
            omega
    · rw [if_neg hany] at h
      injection h with h'
      injection h' with h1 h2
      injection h2 with h2 h3
      subst h1; subst h2; subst h3
      simp only [List.any_eq_true, decide_eq_true_eq] at hany
      push_neg at hany
      refine ⟨by simp, by simp [sumBy], by simp [sumBy], ?_, by simp, Or.inl rfl, by simp⟩
      intro it hit
      have := hany it hit
      omega

/-- Anatomy of a successful `generate_payment_schedule`: every
produced month satisfies `monthOk`, there are at most 600 of them with
month numbers 1..600 strictly increasing, and they are exactly the
output of the month loop run from the loans' current balances, whose
final working balances are all nonpositive and account for the total
principal. -/
theorem generate_ok_inv (s : PState) (p : PState × ℕ)
    (h : generate_payment_schedule s = .ok p) :
    (∀ m ∈ p.1.schedule, monthOk m) ∧
    p.1.schedule.length ≤ 600 ∧
    (∀ m ∈ p.1.schedule, 1 ≤ m.month_number ∧ m.month_number ≤ 600) ∧
    p.1.schedule.Pairwise (fun a b => a.month_number < b.month_number) ∧
    p.2 = p.1.schedule.length ∧
    ∃ itF accF,
      simLoop (s.plan.monthly_payment_budget
          - sumBy (·.minimum_payment)
              (orderByPayoff (s.loans.filter fun l => 0 < l.remaining_balance))) 601 1
          ((orderByPayoff (s.loans.filter fun l => 0 < l.remaining_balance)).map
            fun l => SimItem.mk l l.remaining_balance) 0
        = .ok (p.1.schedule, itF, accF) ∧
      (∀ it ∈ itF, it.bal ≤ 0) ∧
      sumBy (·.bal) itF
        = sumBy (fun l => l.remaining_balance)
            (orderByPayoff (s.loans.filter fun l => 0 < l.remaining_balance))
          - sumBy (·.total_principal) p.1.schedule := by
  unfold generate_payment_schedule at h
  by_cases hemp : (orderByPayoff (s.loans.filter fun l => 0 < l.remaining_balance)).isEmpty
  · rw [if_pos hemp] at h
    injection h with h'
    have hnil : orderByPayoff (s.loans.filter fun l => 0 < l.remaining_balance) = [] :=
      List.isEmpty_iff.mp hemp
    have hp1 : p.1.schedule = [] := by
      rw [← h']
    have hp2 : p.2 = 0 := by rw [← h']
    refine ⟨by simp [hp1], by simp [hp1], by simp [hp1], by simp [hp1], by simp [hp1, hp2], ?_⟩
    refine ⟨[], 0, ?_, by simp, ?_⟩
    · rw [hp1, hnil]
      simp [simLoop]
    · rw [hnil, hp1]
      simp [sumBy]
  · rw [if_neg hemp] at h
    cases hval : validateLoans (orderByPayoff (s.loans.filter fun l => 0 < l.remaining_balance)) with
    | some e => rw [hval] at h; exact absurd h (by simp)
    | none =>
      rw [hval] at h
      by_cases hbud : s.plan.monthly_payment_budget
          < sumBy (·.minimum_payment) (orderByPayoff (s.loans.filter fun l => 0 < l.remaining_balance))
      · rw [if_pos hbud] at h
        exact absurd h (by simp)
      · rw [if_neg hbud] at h
        simp only [] at h
        cases hsim : simLoop (s.plan.monthly_payment_budget
            - sumBy (·.minimum_payment)
                (orderByPayoff (s.loans.filter fun l => 0 < l.remaining_balance))) 601 1
            ((orderByPayoff (s.loans.filter fun l => 0 < l.remaining_balance)).map
              fun l => SimItem.mk l l.remaining_balance) 0 with
        | error e => rw [hsim] at h; exact absurd h (by simp)
        | ok t =>
          obtain ⟨ms, itF, accF⟩ := t
          rw [hsim] at h
          injection h with h'
          obtain ⟨i1, i2, i3, i4, i5, i6, i7⟩ := simLoop_inv _ 601 1 _ 0 ms itF accF hsim
          have hsched : p.1.schedule = ms := by rw [← h']
          have hp2 : p.2 = ms.length := by rw [← h']
          rw [hsched, hp2]
          refine ⟨i1, ?_, ?_, i7, rfl, itF, accF, rfl, i4, ?_⟩
          · rcases i6 with h6 | h6
            · simp [h6]
            · omega
          · intro m hm
            exact i5 m hm
          · rw [i3, sumBy_map]

/-- Filtering twice by the same predicate is the same as once. -/
theorem filter_idem (p : α → Bool) : ∀ l : List α, (l.filter p).filter p = l.filter p
  | [] => rfl
  | x :: xs => by
    by_cases h : p x <;> simp [List.filter_cons, h, filter_idem p xs]

/-- Anatomy of a successful `regenerate_schedule_from_month`: months
strictly before `start` are exactly the preserved rows of the input
state; months at or after `start` are freshly simulated (and satisfy
`monthOk`, stay within the 600 ceiling, and number at most
`601 - start`); when there are active loans, the reported cumulative
interest is the preserved months' interest plus the new months'
interest; month numbers stay duplicate-free; and the final working
balances of the simulation are all nonpositive. -/
theorem regenerate_ok_inv (s : PState) (start : ℕ) (p : PState × ℕ)
    (h : regenerate_schedule_from_month s start = .ok p) :
    p.1.schedule.filter (fun m => m.month_number < start)
        = s.schedule.filter (fun m => m.month_number < start) ∧
    (∀ m ∈ p.1.schedule, ¬ m.month_number < start → monthOk m) ∧
    (∀ m ∈ p.1.schedule, ¬ m.month_number < start →
        start ≤ m.month_number ∧ m.month_number ≤ 600) ∧
    (p.2 = 0 ∨ start + p.2 ≤ 601) ∧
    (¬ (orderByPayoff (s.loans.filter fun l => 0 < l.remaining_balance)).isEmpty →
        p.1.plan.total_interest_saved
          = sumBy (·.total_interest) (s.schedule.filter fun m => m.month_number < start)
            + sumBy (·.total_interest)
                (p.1.schedule.filter fun m => ¬ m.month_number < start)) ∧
    ((s.schedule.map (·.month_number)).Nodup → (p.1.schedule.map (·.month_number)).Nodup) ∧
    ∃ itF accF,
      simLoop (s.plan.monthly_payment_budget
          - sumBy (·.minimum_payment)
              (orderByPayoff (s.loans.filter fun l => 0 < l.remaining_balance))) 601 start
          ((orderByPayoff (s.loans.filter fun l => 0 < l.remaining_balance)).map
            fun l => SimItem.mk l l.remaining_balance)
          (sumBy (·.total_interest) (s.schedule.filter fun m => m.month_number < start))
        = .ok (p.1.schedule.filter (fun m => ¬ m.month_number < start), itF, accF) ∧
      (∀ it ∈ itF, it.bal ≤ 0) := by
  unfold regenerate_schedule_from_month at h
  by_cases hemp : (orderByPayoff (s.loans.filter fun l => 0 < l.remaining_balance)).isEmpty
  · rw [if_pos hemp] at h
    injection h with h'
    have hnil : orderByPayoff (s.loans.filter fun l => 0 < l.remaining_balance) = [] :=
      List.isEmpty_iff.mp hemp
    have hp1 : p.1.schedule = s.schedule.filter (fun m => m.month_number < start) := by
      rw [← h']
    have hp2 : p.2 = 0 := by rw [← h']
    have hfneg : (s.schedule.filter (fun m => m.month_number < start)).filter
        (fun m => ¬ m.month_number < start) = [] := by
      rw [List.filter_eq_nil]
      intro m hm
      have := List.of_mem_filter hm
      simp at this ⊢
      omega
    refine ⟨?_, ?_, ?_, Or.inl hp2, fun hc => absurd hemp hc, ?_, ?_⟩
    · rw [hp1, filter_idem]
    · intro m hm hge
      have := List.of_mem_filter (hp1 ▸ hm)
      simp at this
      omega
    · intro m hm hge
      have := List.of_mem_filter (hp1 ▸ hm)
      simp at this
      omega
    · intro hnd
      rw [hp1]
      exact hnd.sublist ((List.filter_sublist _).map _)
    · refine ⟨[], sumBy (·.total_interest) (s.schedule.filter fun m => m.month_number < start),
        ?_, by simp⟩
      rw [hp1, hfneg, hnil]
      simp [simLoop]
  · rw [if_neg hemp] at h
    cases hval : validateLoans (orderByPayoff (s.loans.filter fun l => 0 < l.remaining_balance)) with
    | some e => rw [hval] at h; exact absurd h (by simp)
    | none =>
      rw [hval] at h
      by_cases hbud : s.plan.monthly_payment_budget
          < sumBy (·.minimum_payment) (orderByPayoff (s.loans.filter fun l => 0 < l.remaining_balance))
      · rw [if_pos hbud] at h
        exact absurd h (by simp)
      · rw [if_neg hbud] at h
        simp only [] at h
        rw [filter_idem] at h
        cases hsim : simLoop (s.plan.monthly_payment_budget
            - sumBy (·.minimum_payment)
                (orderByPayoff (s.loans.filter fun l => 0 < l.remaining_balance))) 601 start
            ((orderByPayoff (s.loans.filter fun l => 0 < l.remaining_balance)).map
              fun l => SimItem.mk l l.remaining_balance)
            (sumBy (·.total_interest) (s.schedule.filter fun m => m.month_number < start)) with
        | error e => rw [hsim] at h; exact absurd h (by simp)
        | ok t =>
          obtain ⟨ms, itF, accF⟩ := t
          rw [hsim] at h
          injection h with h'
          obtain ⟨i1, i2, i3, i4, i5, i6, i7⟩ := simLoop_inv _ 601 start _ _ ms itF accF hsim
          have hp1 : p.1.schedule = s.schedule.filter (fun m => m.month_number < start) ++ ms := by
            rw [← h']
          have hp2 : p.2 = ms.length := by rw [← h']
          have hptis : p.1.plan.total_interest_saved = accF := by rw [← h']
          have hmem_pre : ∀ m ∈ s.schedule.filter (fun m : ScheduleMonth => m.month_number < start),
              m.month_number < start := by
            intro m hm
            have := List.of_mem_filter hm
            simpa using this
          have hmem_ms : ∀ m ∈ ms, start ≤ m.month_number ∧ m.month_number ≤ 600 := i5
          have hfilt_lt : p.1.schedule.filter (fun m => m.month_number < start)
              = s.schedule.filter (fun m => m.month_number < start) := by
            rw [hp1, List.filter_append, filter_idem]
            have : ms.filter (fun m => m.month_number < start) = [] := by
              rw [List.filter_eq_nil]
              intro m hm
              have := hmem_ms m hm
              simp
              omega
            rw [this, List.append_nil]
          have hfilt_ge : p.1.schedule.filter (fun m => ¬ m.month_number < start) = ms := by
            rw [hp1, List.filter_append]
            have h1 : (s.schedule.filter (fun m : ScheduleMonth => m.month_number < start)).filter
                (fun m => ¬ m.month_number < start) = [] := by
              rw [List.filter_eq_nil]
              intro m hm
              have := hmem_pre m hm
              simp
              omega
            have h2 : ms.filter (fun m => ¬ m.month_number < start) = ms := by
              rw [List.filter_eq_self]
              intro m hm
              have := hmem_ms m hm
              simp
              omega
            rw [h1, h2, List.nil_append]
          refine ⟨hfilt_lt, ?_, ?_, ?_, ?_, ?_, itF, accF, ?_, i4⟩
          · intro m hm hge
            rw [hp1] at hm
            rcases List.mem_append.mp hm with hmm | hmm
            · exact absurd (hmem_pre m hmm) hge
            · exact i1 m hmm
          · intro m hm hge
            rw [hp1] at hm
            rcases List.mem_append.mp hm with hmm | hmm
            · exact absurd (hmem_pre m hmm) hge
            · exact hmem_ms m hmm
          · rw [hp2]
            rcases i6 with h6 | h6
            · left; simp [h6]
            · right; omega
          · intro _
            rw [hptis, i2, hfilt_ge]
          · intro hnd
            rw [hp1, List.map_append]
            rw [List.nodup_append]
            refine ⟨hnd.sublist ((List.filter_sublist _).map _), ?_, ?_⟩
            · have : ms.Pairwise (fun a b => a.month_number < b.month_number) := i7
              have hpm : (ms.map (·.month_number)).Pairwise (· < ·) :=
                List.pairwise_map.mpr this
              exact hpm.imp Nat.ne_of_lt
            · intro a ha hb
              rcases List.mem_map.mp ha with ⟨m, hm, rfl⟩
              rcases List.mem_map.mp hb with ⟨m', hm', heq⟩
              have h1 := hmem_pre m hm
              have h2 := (hmem_ms m' hm').1
              omega
          · rw [hfilt_ge]

/-- Stable insertion permutes. -/
theorem insertStable_perm (lt : α → α → Bool) (x : α) :
    ∀ l : List α, (insertStable lt x l).Perm (x :: l)
  | [] => List.Perm.refl _
  | y :: ys => by
    by_cases h : lt y x
    · simp only [insertStable, if_pos h]
      exact ((insertStable_perm lt x ys).cons y).trans (List.Perm.swap x y ys)
    · simp only [insertStable, if_neg h]
      exact List.Perm.refl _

/-- Stable sort permutes. -/
theorem stableSort_perm (lt : α → α → Bool) :
    ∀ l : List α, (stableSort lt l).Perm l
  | [] => List.Perm.refl _
  | x :: xs =>
    (insertStable_perm lt x (stableSort lt xs)).trans ((stableSort_perm lt xs).cons x)

/-- `sumBy` as a mapped sum. -/
theorem sumBy_eq_sum_map (f : α → ℤ) : ∀ l : List α, sumBy f l = (l.map f).sum
  | [] => rfl
  | x :: xs => by simp [sumBy, sumBy_eq_sum_map f xs]

/-- `sumBy` is invariant under permutation. -/
theorem sumBy_perm (f : α → ℤ) {l l' : List α} (h : l.Perm l') : sumBy f l = sumBy f l' := by
  rw [sumBy_eq_sum_map, sumBy_eq_sum_map, (h.map f).sum_eq]

/-- C2: CONFIRMED.  In every schedule the simulator produces — by
`generate_payment_schedule`, or by `regenerate_schedule_from_month`
for the freshly simulated months — every month satisfies
`total_interest + total_principal = total_payment`; each per-loan
breakdown satisfies `interest_amount + principal_amount =
payment_amount`; and across one month's breakdowns, payment, interest
and principal amounts each sum to the month totals (`monthOk`). -/
theorem c2_month_identities :
    (∀ (s : PState) (p : PState × ℕ), generate_payment_schedule s = .ok p →
        ∀ m ∈ p.1.schedule, monthOk m) ∧
    (∀ (s : PState) (start : ℕ) (q : PState × ℕ),
        regenerate_schedule_from_month s start = .ok q →
        ∀ m ∈ q.1.schedule, ¬ m.month_number < start → monthOk m) := by
  constructor
  · intro s p h
    exact (generate_ok_inv s p h).1
  · intro s start q h
    exact (regenerate_ok_inv s start q h).2.1

/-- C2 witness: the identities hold on month 1 of the concrete plan
`sK` ($1000.00 at 12%, budget $600.00). -/
theorem c2_month_identities_witness :
    monthOk ((okSchedule (generate_payment_schedule sK)).getD 0 emptyMonth) :=
  c2_month_identities.1 sK (okStateOr sK (generate_payment_schedule sK), 2) (by decide)
    ((okSchedule (generate_payment_schedule sK)).getD 0 emptyMonth) (by decide)

/-- C4 AMENDED: CONFIRMED form.  `generate_payment_schedule` simulates
from the loans' current `remaining_balance` (services.py line 116), so
on success the sum over all months of `total_principal` equals the sum
of `remaining_balance` over the loans with positive balance minus the
sum of the final working balances (each nonpositive; all zero in the
usual case, making the two sums equal). -/
theorem c4_principal_conservation (s : PState) (p : PState × ℕ)
    (h : generate_payment_schedule s = .ok p) :
    ∃ itF accF,
      simLoop (s.plan.monthly_payment_budget
          - sumBy (·.minimum_payment)
              (orderByPayoff (s.loans.filter fun l => 0 < l.remaining_balance))) 601 1
          ((orderByPayoff (s.loans.filter fun l => 0 < l.remaining_balance)).map
            fun l => SimItem.mk l l.remaining_balance) 0
        = .ok (p.1.schedule, itF, accF) ∧
      (∀ it ∈ itF, it.bal ≤ 0) ∧
      sumBy (·.total_principal) p.1.schedule
        = sumBy (fun l => l.remaining_balance) (s.loans.filter fun l => 0 < l.remaining_balance)
          - sumBy (·.bal) itF := by
  obtain ⟨-, -, -, -, -, itF, accF, hsim, hle, hbal⟩ := generate_ok_inv s p h
  refine ⟨itF, accF, hsim, hle, ?_⟩
  have hperm : sumBy (fun l => l.remaining_balance)
      (orderByPayoff (s.loans.filter fun l => 0 < l.remaining_balance))
      = sumBy (fun l => l.remaining_balance) (s.loans.filter fun l => 0 < l.remaining_balance) :=
    sumBy_perm _ (stableSort_perm _ _)
  omega

/-- C4 amended witness: on `sK` the single loan is driven exactly to
zero, so the months' principal sums to the loan's remaining balance
($1000.00). -/
theorem c4_principal_conservation_witness :
    (∃ itF accF,
      simLoop (sK.plan.monthly_payment_budget
          - sumBy (·.minimum_payment)
              (orderByPayoff (sK.loans.filter fun l => 0 < l.remaining_balance))) 601 1
          ((orderByPayoff (sK.loans.filter fun l => 0 < l.remaining_balance)).map
            fun l => SimItem.mk l l.remaining_balance) 0
        = .ok ((okStateOr sK (generate_payment_schedule sK), 2).1.schedule, itF, accF) ∧
      (∀ it ∈ itF, it.bal ≤ 0) ∧
      sumBy (·.total_principal) (okStateOr sK (generate_payment_schedule sK), 2).1.schedule
        = sumBy (fun l => l.remaining_balance) (sK.loans.filter fun l => 0 < l.remaining_balance)
          - sumBy (·.bal) itF) ∧
    sumBy (fun l => l.remaining_balance) (sK.loans.filter fun l => 0 < l.remaining_balance)
      = 100000 :=
  ⟨c4_principal_conservation sK (okStateOr sK (generate_payment_schedule sK), 2) (by decide),
    by decide⟩

/-- C5: CONFIRMED.  `record_payment` rejects with a validation error
any payment below the interest charge computed on the
balance-before-payment (negative amortization) or above
balance-before-payment plus that charge (overpayment); every such call
returns an error and — the transaction aborting — leaves the state
exactly as it was: no loan balance, payoff rank, payment record or
schedule row is mutated. -/
theorem c5_rejects_amortization_violations (s : PState) (lid : ℕ) (amount : ℤ)
    (month_number : ℕ) (skip : Bool) (loan : Loan)
    (hl : s.loans.find? (fun l => l.lid == lid) = some loan)
    (hviol : amount < interestCharge loan.remaining_balance loan.interest_rate ∨
        loan.remaining_balance + interestCharge loan.remaining_balance loan.interest_rate
          < amount) :
    (∃ e, record_payment s lid amount month_number skip = .error e) ∧
    record_payment_state s lid amount month_number skip = s := by
  have herr : ∃ e, record_payment s lid amount month_number skip = .error e := by
    unfold record_payment
    simp only [hl]
    by_cases h1 : amount ≤ 0
    · rw [if_pos h1]
      exact ⟨_, rfl⟩
    · rw [if_neg h1]
      by_cases h2 : maxMonth s.schedule < month_number
      · rw [if_pos h2]
        exact ⟨_, rfl⟩
      · rw [if_neg h2]
        by_cases h3 : amount < interestCharge loan.remaining_balance loan.interest_rate
        · rw [if_pos h3]
          exact ⟨_, rfl⟩
        · rw [if_neg h3]
          have h4 : loan.remaining_balance
              + interestCharge loan.remaining_balance loan.interest_rate < amount := by
            rcases hviol with h | h
            · exact absurd h h3
            · exact h
          rw [if_pos h4]
          exact ⟨_, rfl⟩
  obtain ⟨e, he⟩ := herr
  refine ⟨⟨e, he⟩, ?_⟩
  unfold record_payment_state
  rw [he]

/-- C5 witness: a $5.00 payment on `loanC6` (interest charge $10.00)
is rejected and the state is untouched. -/
theorem c5_rejects_witness :
    sSplit.loans.find? (fun l => l.lid == 1) = some loanC6 ∧
    (500 : ℤ) < interestCharge loanC6.remaining_balance loanC6.interest_rate ∧
    ((∃ e, record_payment sSplit 1 500 1 false = .error e) ∧
      record_payment_state sSplit 1 500 1 false = sSplit) :=
  ⟨by decide, by decide,
    c5_rejects_amortization_violations sSplit 1 500 1 false loanC6 (by decide)
      (Or.inl (by decide))⟩

/-- C7 AMENDED: CONFIRMED form.  `regenerate_schedule_from_month`
leaves every ScheduleMonth row with `month_number < start` — with its
per-loan breakdowns — untouched, and (when active loans exist) the
cumulative interest it reports equals the preserved earlier months'
`total_interest` plus the interest of the newly simulated months.
(The original claim's final clause — equality with a full from-scratch
regenerate — is refuted by `c7_counterexample`.) -/
theorem c7_regeneration_frame (s : PState) (start : ℕ) (p : PState × ℕ)
    (h : regenerate_schedule_from_month s start = .ok p)
    (hne : ¬ (orderByPayoff (s.loans.filter fun l => 0 < l.remaining_balance)).isEmpty) :
    p.1.schedule.filter (fun m => m.month_number < start)
        = s.schedule.filter (fun m => m.month_number < start) ∧
    p.1.plan.total_interest_saved
      = sumBy (·.total_interest) (s.schedule.filter fun m => m.month_number < start)
        + sumBy (·.total_interest) (p.1.schedule.filter fun m => ¬ m.month_number < start) := by
  obtain ⟨h1, -, -, -, h5, -, -⟩ := regenerate_ok_inv s start p h
  exact ⟨h1, h5 hne⟩

/-- C7 amended witness: regenerating `sKgen` from month 2 preserves
month 1 and reports $10.00 + $14.10 = $24.10. -/
theorem c7_regeneration_frame_witness :
    (okStateOr sKgen (regenerate_schedule_from_month sKgen 2), 2).1.schedule.filter
        (fun m => m.month_number < 2)
      = sKgen.schedule.filter (fun m => m.month_number < 2) ∧
    (okStateOr sKgen (regenerate_schedule_from_month sKgen 2), 2).1.plan.total_interest_saved
      = sumBy (·.total_interest) (sKgen.schedule.filter fun m => m.month_number < 2)
        + sumBy (·.total_interest)
            ((okStateOr sKgen (regenerate_schedule_from_month sKgen 2), 2).1.schedule.filter
              fun m => ¬ m.month_number < 2) :=
  c7_regeneration_frame sKgen 2 (okStateOr sKgen (regenerate_schedule_from_month sKgen 2), 2)
    (by decide) (by decide)

/-- C10 AMENDED: CONFIRMED form.  Both simulation loops terminate on
every input: each run either raises a validation error (infeasible
plan or the 600-month ceiling) or returns the full schedule, which has
at most 600 months (counting from the start month) and whose final
working balances are all nonpositive — the loop stops because no loan
owes anything, never by silent truncation.  (The original claim's "all
balances reach zero" is refuted by `c10_counterexample`: a balance can
end strictly negative.) -/
theorem c10_termination_dichotomy (s : PState) (start : ℕ) :
    ((∃ e, generate_payment_schedule s = .error e) ∨
      (∃ p : PState × ℕ, generate_payment_schedule s = .ok p ∧
        p.1.schedule.length ≤ 600 ∧
        ∃ itF accF,
          simLoop (s.plan.monthly_payment_budget
              - sumBy (·.minimum_payment)
                  (orderByPayoff (s.loans.filter fun l => 0 < l.remaining_balance))) 601 1
              ((orderByPayoff (s.loans.filter fun l => 0 < l.remaining_balance)).map
                fun l => SimItem.mk l l.remaining_balance) 0
            = .ok (p.1.schedule, itF, accF) ∧
          ∀ it ∈ itF, it.bal ≤ 0)) ∧
    ((∃ e, regenerate_schedule_from_month s start = .error e) ∨
      (∃ q : PState × ℕ, regenerate_schedule_from_month s start = .ok q ∧
        (q.2 = 0 ∨ start + q.2 ≤ 601) ∧
        ∃ itF accF,
          simLoop (s.plan.monthly_payment_budget
              - sumBy (·.minimum_payment)
                  (orderByPayoff (s.loans.filter fun l => 0 < l.remaining_balance))) 601 start
              ((orderByPayoff (s.loans.filter fun l => 0 < l.remaining_balance)).map
                fun l => SimItem.mk l l.remaining_balance)
              (sumBy (·.total_interest) (s.schedule.filter fun m => m.month_number < start))
            = .ok (q.1.schedule.filter (fun m => ¬ m.month_number < start), itF, accF) ∧
          ∀ it ∈ itF, it.bal ≤ 0)) := by
  constructor
  · cases hg : generate_payment_schedule s with
    | error e => exact Or.inl ⟨e, rfl⟩
    | ok p =>
      right
      obtain ⟨-, hlen, -, -, -, itF, accF, hsim, hle, -⟩ := generate_ok_inv s p hg
      exact ⟨p, rfl, hlen, itF, accF, hsim, hle⟩
  · cases hr : regenerate_schedule_from_month s start with
    | error e => exact Or.inl ⟨e, rfl⟩
    | ok q =>
      right
      obtain ⟨-, -, -, hq2, -, -, itF, accF, hsim, hle⟩ := regenerate_ok_inv s start q hr
      exact ⟨q, rfl, hq2, itF, accF, hsim, hle⟩

/-- Stable insertion preserves the sortedness pairwise relation
`fun a b => lt b a = false` ("a not strictly above b") given asymmetry
and negative transitivity of `lt`. -/
theorem insertStable_pairwise (lt : α → α → Bool)
    (hasym : ∀ a b, lt a b = true → lt b a = false)
    (hneg : ∀ x y z, lt y x = false → lt z y = false → lt z x = false)
    (x : α) :
    ∀ l : List α, l.Pairwise (fun a b => lt b a = false) →
      (insertStable lt x l).Pairwise (fun a b => lt b a = false)
  | [], _ => by simp [insertStable]
  | y :: ys, hl => by
    obtain ⟨hy, hys⟩ := List.pairwise_cons.mp hl
    by_cases h : lt y x
    · simp only [insertStable, if_pos h]
      refine List.pairwise_cons.mpr ⟨?_, insertStable_pairwise lt hasym hneg x ys hys⟩
      intro z hz
      rcases List.mem_cons.mp ((insertStable_perm lt x ys).mem_iff.mp hz) with hzx | hzy
      · subst hzx
        exact hasym y z h
      · exact hy z hzy
    · simp only [insertStable, if_neg h]
      refine List.pairwise_cons.mpr ⟨?_, hl⟩
      intro z hz
      rcases List.mem_cons.mp hz with hzy | hzys
      · subst hzy
        exact Bool.eq_false_iff.mpr h
      · have h1 : lt y x = false := Bool.eq_false_iff.mpr h
        exact hneg x y z h1 (hy z hzys)

/-- Stable sort sorts (with respect to `fun a b => lt b a = false`). -/
theorem stableSort_pairwise (lt : α → α → Bool)
    (hasym : ∀ a b, lt a b = true → lt b a = false)
    (hneg : ∀ x y z, lt y x = false → lt z y = false → lt z x = false) :
    ∀ l : List α, (stableSort lt l).Pairwise (fun a b => lt b a = false)
  | [] => by simp [stableSort]
  | x :: xs => by
    simp only [stableSort]
    exact insertStable_pairwise lt hasym hneg x _ (stableSort_pairwise lt hasym hneg xs)

/-- Inserting an element preserves sublists of the original list. -/
theorem sublist_insertStable (lt : α → α → Bool) (x : α) :
    ∀ {l' l : List α}, l'.Sublist l → l'.Sublist (insertStable lt x l)
  | l', [], h => by
    simp only [List.sublist_nil] at h
    subst h
    exact List.nil_sublist _
  | l', y :: ys, h => by
    by_cases hc : lt y x
    · simp only [insertStable, if_pos hc]
      cases h with
      | cons _ h => exact (sublist_insertStable lt x h).cons y
      | cons₂ _ h => exact (sublist_insertStable lt x h).cons₂ y
    · simp only [insertStable, if_neg hc]
      exact h.cons x

/-- If `b` is in the list and is not strictly below `x`, inserting `x`
puts `x` before `b`. -/
theorem insertStable_before (lt : α → α → Bool) (x b : α) (hb : lt b x = false) :
    ∀ l : List α, b ∈ l → [x, b].Sublist (insertStable lt x l)
  | [], hmem => absurd hmem (List.not_mem_nil b)
  | y :: ys, hmem => by
    by_cases hc : lt y x
    · simp only [insertStable, if_pos hc]
      have hby : b ≠ y := by
        intro he
        subst he
        rw [hb] at hc
        exact Bool.false_ne_true hc
      have hbys : b ∈ ys := by
        rcases List.mem_cons.mp hmem with h | h
        · exact absurd h hby
        · exact h
      exact (insertStable_before lt x b hb ys hbys).cons y
    · simp only [insertStable, if_neg hc]
      exact (List.singleton_sublist.mpr hmem).cons₂ x

/-- Stability of `stableSort`: if `a` occurs before `b` in the input
and `b` is not strictly below `a`, then `a` stays before `b` in the
output. -/
theorem stableSort_stable (lt : α → α → Bool) (a b : α) (hba : lt b a = false) :
    ∀ l : List α, [a, b].Sublist l → [a, b].Sublist (stableSort lt l)
  | [], h => by
    simp at h
  | x :: xs, h => by
    simp only [stableSort]
    cases h with
    | cons _ h =>
      exact sublist_insertStable lt x (stableSort_stable lt a b hba xs h)
    | cons₂ _ h =>
      have hbmem : b ∈ stableSort lt xs :=
        (stableSort_perm lt xs).mem_iff.mpr (List.singleton_sublist.mp h)
      exact insertStable_before lt a b hba _ hbmem

/-- Rank pairs carry exactly the sorted loans. -/
theorem assignRanks_map_snd : ∀ (n : ℕ) (l : List Loan),
    (assignRanks n l).map (·.2) = l
  | _, [] => rfl
  | n, x :: xs => by simp [assignRanks, assignRanks_map_snd (n + 1) xs]

/-- Every rank pair's rank is within the dense window. -/
theorem mem_assignRanks : ∀ (n : ℕ) (l : List Loan) (p : ℕ × Loan),
    p ∈ assignRanks n l → n ≤ p.1 ∧ p.1 < n + l.length
  | n, [], p, h => absurd h (List.not_mem_nil p)
  | n, x :: xs, p, h => by
    rcases List.mem_cons.mp h with h | h
    · subst h
      simp
    · have := mem_assignRanks (n + 1) xs p h
      simp only [List.length_cons]
      omega

/-- Ranks are assigned strictly increasing, hence pairwise distinct. -/
theorem assignRanks_fst_pairwise : ∀ (n : ℕ) (l : List Loan),
    (assignRanks n l).Pairwise (fun p q => p.1 < q.1)
  | _, [] => List.Pairwise.nil
  | n, x :: xs => by
    refine List.pairwise_cons.mpr ⟨?_, assignRanks_fst_pairwise (n + 1) xs⟩
    intro q hq
    have := mem_assignRanks (n + 1) xs q hq
    simp only []
    omega

/-- C9 AMENDED: CONFIRMED form.  `recalculate_all_payoff_orders`
sorts exactly the loans with `remaining_balance > 0`, ascending by
remaining balance (snowball) or descending by interest rate
(avalanche), breaking ties by the loans' current iteration order —
the model's default `['payoff_order', 'created_at']` ordering, NOT
pure creation order (refuted by `c9_counterexample`) — via a stable
sort; it assigns dense 1-based ranks in sorted order, clears the rank
of every loan with balance exactly 0, and returns the count of ranked
loans (an empty set ranks nothing). -/
theorem c9_payoff_order_resolver (s : PState)
    (hnodup : (s.loans.map (·.lid)).Nodup) :
    (recalculate_all_payoff_orders s).2 = (activeMeta s).length ∧
    (strategySorted s).Perm (activeMeta s) ∧
    (s.plan.strategy = .snowball →
      (strategySorted s).Pairwise fun a b => a.remaining_balance ≤ b.remaining_balance) ∧
    (s.plan.strategy = .avalanche →
      (strategySorted s).Pairwise fun a b => b.interest_rate ≤ a.interest_rate) ∧
    (∀ a b : Loan, [a, b].Sublist (activeMeta s) →
      (s.plan.strategy = .snowball → ¬ b.remaining_balance < a.remaining_balance) →
      (s.plan.strategy = .avalanche → ¬ a.interest_rate < b.interest_rate) →
      [a, b].Sublist (strategySorted s)) ∧
    (assignRanks 1 (strategySorted s)).map (·.2) = strategySorted s ∧
    (∀ p ∈ assignRanks 1 (strategySorted s), 1 ≤ p.1 ∧ p.1 ≤ (activeMeta s).length) ∧
    ((assignRanks 1 (strategySorted s)).map (·.1)).Nodup ∧
    (∀ l ∈ (recalculate_all_payoff_orders s).1.loans,
        l.remaining_balance = 0 → l.payoff_order = none) ∧
    (∀ l ∈ (recalculate_all_payoff_orders s).1.loans,
        0 < l.remaining_balance →
        ∃ r, l.payoff_order = some r ∧ 1 ≤ r ∧ r ≤ (activeMeta s).length) := by
  have hperm : (strategySorted s).Perm (activeMeta s) := by
    unfold strategySorted
    cases s.plan.strategy
    · exact stableSort_perm _ _
    · exact stableSort_perm _ _
  have hlen : (strategySorted s).length = (activeMeta s).length := hperm.length_eq
  have hmemA : ∀ l ∈ activeMeta s, l ∈ s.loans ∧ 0 < l.remaining_balance := by
    intro l hl
    have h1 := List.mem_of_mem_filter hl
    have h2 := List.of_mem_filter hl
    refine ⟨(stableSort_perm payoffLt s.loans).mem_iff.mp h1, by simpa using h2⟩
  have hmem_inj : ∀ x ∈ s.loans, ∀ y ∈ s.loans, x.lid = y.lid → x = y := by
    intro x hx y hy hxy
    exact List.inj_on_of_nodup_map hnodup hx hy hxy
  have hcount : (recalculate_all_payoff_orders s).2 = (activeMeta s).length := by
    unfold recalculate_all_payoff_orders
    simpa using hlen
  have hbound : ∀ p ∈ assignRanks 1 (strategySorted s), 1 ≤ p.1 ∧ p.1 ≤ (activeMeta s).length := by
    intro p hp
    have := mem_assignRanks 1 (strategySorted s) p hp
    omega
  have hloans : (recalculate_all_payoff_orders s).1.loans
      = s.loans.map (fun l =>
          match (assignRanks 1 (strategySorted s)).find? (fun p => p.2.lid == l.lid) with
          | some p => { l with payoff_order := some p.1 }
          | none =>
            if l.remaining_balance == 0 then { l with payoff_order := none } else l) := by
    unfold recalculate_all_payoff_orders
    rfl
  refine ⟨hcount, hperm, ?_, ?_, ?_, assignRanks_map_snd 1 _, hbound, ?_, ?_, ?_⟩
  · intro hstrat
    have hpw : (stableSort snowballLt (activeMeta s)).Pairwise
        (fun a b => snowballLt b a = false) := by
      refine stableSort_pairwise snowballLt ?_ ?_ _
      · intro a b h
        simp only [snowballLt, decide_eq_true_eq] at h
        simp only [snowballLt, decide_eq_false_iff_not]
        omega
      · intro x y z h1 h2
        simp only [snowballLt, decide_eq_false_iff_not] at h1 h2 ⊢
        omega
    unfold strategySorted
    rw [hstrat]
    refine hpw.imp ?_
    intro a b h
    simp only [snowballLt, decide_eq_false_iff_not] at h
    omega
  · intro hstrat
    have hpw : (stableSort avalancheLt (activeMeta s)).Pairwise
        (fun a b => avalancheLt b a = false) := by
      refine stableSort_pairwise avalancheLt ?_ ?_ _
      · intro a b h
        simp only [avalancheLt, decide_eq_true_eq] at h
        simp only [avalancheLt, decide_eq_false_iff_not]
        omega
      · intro x y z h1 h2
        simp only [avalancheLt, decide_eq_false_iff_not] at h1 h2 ⊢
        omega
    unfold strategySorted
    rw [hstrat]
    refine hpw.imp ?_
    intro a b h
    simp only [avalancheLt, decide_eq_false_iff_not] at h
    omega
  · intro a b hsub hsnow haval
    unfold strategySorted
    cases hstrat : s.plan.strategy
    · refine stableSort_stable snowballLt a b ?_ _ hsub
      simp only [snowballLt, decide_eq_false_iff_not]
      exact hsnow hstrat
    · refine stableSort_stable avalancheLt a b ?_ _ hsub
      simp only [avalancheLt, decide_eq_false_iff_not]
      exact haval hstrat
  · have hpw := assignRanks_fst_pairwise 1 (strategySorted s)
    have : ((assignRanks 1 (strategySorted s)).map (·.1)).Pairwise (· < ·) :=
      List.pairwise_map.mpr hpw
    exact this.imp Nat.ne_of_lt
  · intro l hl hzero
    rw [hloans] at hl
    rcases List.mem_map.mp hl with ⟨l0, hl0, hfl⟩
    cases hf : (assignRanks 1 (strategySorted s)).find? (fun p => p.2.lid == l0.lid) with
    | some p =>
      rw [hf] at hfl
      have hp_mem := List.mem_of_find?_eq_some hf
      have hp_pred := List.find?_some hf
      have hp2 : p.2 ∈ strategySorted s := by
        rw [← assignRanks_map_snd 1 (strategySorted s)]
        exact List.mem_map_of_mem _ hp_mem
      have hp2A : p.2 ∈ activeMeta s := hperm.mem_iff.mp hp2
      obtain ⟨hp2s, hp2pos⟩ := hmemA p.2 hp2A
      have hlid : p.2.lid = l0.lid := by simpa using hp_pred
      have : p.2 = l0 := hmem_inj p.2 hp2s l0 hl0 hlid
      subst this
      rw [← hfl] at hzero
      simp only [] at hzero
      omega
    | none =>
      rw [hf] at hfl
      by_cases hz : l0.remaining_balance == 0
      · rw [if_pos hz] at hfl
        rw [← hfl]
      · rw [if_neg hz] at hfl
        subst hfl
        exact absurd (by simpa using hzero) (by simpa using hz)
  · intro l hl hpos
    rw [hloans] at hl
    rcases List.mem_map.mp hl with ⟨l0, hl0, hfl⟩
    cases hf : (assignRanks 1 (strategySorted s)).find? (fun p => p.2.lid == l0.lid) with
    | some p =>
      rw [hf] at hfl
      have hp_mem := List.mem_of_find?_eq_some hf
      have hb := hbound p hp_mem
      refine ⟨p.1, ?_, hb.1, hb.2⟩
      rw [← hfl]
    | none =>
      rw [hf] at hfl
      have hl0pos : 0 < l0.remaining_balance := by
        by_cases hz : l0.remaining_balance == 0
        · rw [if_pos hz] at hfl
          rw [← hfl] at hpos
          simpa using hpos
        · rw [if_neg hz] at hfl
          subst hfl
          exact hpos
      have hl0A : l0 ∈ activeMeta s := by
        unfold activeMeta
        refine List.mem_filter.mpr ⟨?_, by simpa using hl0pos⟩
        exact (stableSort_perm payoffLt s.loans).mem_iff.mpr hl0
      have hl0S : l0 ∈ strategySorted s := hperm.mem_iff.mpr hl0A
      have : ∃ p ∈ assignRanks 1 (strategySorted s), p.2 = l0 := by
        rw [← assignRanks_map_snd 1 (strategySorted s)] at hl0S
        rcases List.mem_map.mp hl0S with ⟨p, hp, hpe⟩
        exact ⟨p, hp, hpe⟩
      rcases this with ⟨p, hp, hpe⟩
      have := List.find?_eq_none.mp hf p hp
      rw [hpe] at this
      simp at this

/-- C9 witness: on the concrete tie state `sTie` the resolver ranks
both active loans and reports a count of 2. -/
theorem c9_payoff_order_resolver_witness :
    (sTie.loans.map (·.lid)).Nodup ∧
    (recalculate_all_payoff_orders sTie).2 = (activeMeta sTie).length ∧
    (activeMeta sTie).length = 2 :=
  ⟨by decide, (c9_payoff_order_resolver sTie (by decide)).1, by decide⟩

/-- `check_if_plan_completed` touches only the plan's active flag, and
deactivates the plan whenever it has loans and all balances are zero. -/
theorem check_if_plan_completed_spec (x : PState) :
    (check_if_plan_completed x).1.schedule = x.schedule ∧
    (check_if_plan_completed x).1.loans = x.loans ∧
    (check_if_plan_completed x).1.payments = x.payments ∧
    (x.loans ≠ [] → (∀ l ∈ x.loans, l.remaining_balance = 0) →
      (check_if_plan_completed x).1.plan.is_active = false) := by
  unfold check_if_plan_completed
  by_cases h1 : x.loans.isEmpty
  · rw [if_pos h1]
    refine ⟨rfl, rfl, rfl, ?_⟩
    intro hne _
    exact absurd (List.isEmpty_iff.mp h1) hne
  · rw [if_neg h1]
    by_cases h2 : ((x.loans.all fun l => l.remaining_balance == 0) && x.plan.is_active) = true
    · rw [if_pos h2]
      exact ⟨rfl, rfl, rfl, fun _ _ => rfl⟩
    · rw [if_neg h2]
      refine ⟨rfl, rfl, rfl, ?_⟩
      intro hne hall
      simp only [Bool.and_eq_true, List.all_eq_true] at h2
      push_neg at h2
      by_cases hz : ∀ l ∈ x.loans, (l.remaining_balance == 0) = true
      · have := h2 hz
        simpa using this
      · exfalso
        apply hz
        intro l hl
        simpa using hall l hl

/-- C8 AMENDED: CONFIRMED form.  When `record_payment` decides that
recalculation is required, it re-runs the Payoff Order Resolver and
then the Partial Regenerator starting at the payment's `month_number`
(not at `max(last-paid month + 1, current month)`, which
`c8_counterexample` refutes), then relinks the PaymentEvent and
re-checks plan completion.  Consequently: (a) schedule months before
the payment's month are exactly the input's; (b) the returned
PaymentEvent is linked to the month now existing for its month number
precisely when that month still carries a breakdown for the loan, and
nulled otherwise; (c) if afterwards the plan has loans and every
balance is zero, the plan ends inactive. -/
theorem c8_recalculation_effects (s : PState) (lid : ℕ) (amount : ℤ)
    (month_number : ℕ) (skip : Bool) (t : PState × PaymentRec × Bool)
    (h : record_payment s lid amount month_number skip = .ok t)
    (hrecalc : t.2.2 = true)
    (hnd : (s.schedule.map (·.month_number)).Nodup) :
    t.1.schedule.filter (fun m => m.month_number < month_number)
        = s.schedule.filter (fun m => m.month_number < month_number) ∧
    (t.2.1.payment_schedule
      = if ∃ m ∈ t.1.schedule, m.month_number = month_number ∧
            ∃ b ∈ m.breakdowns, b.loan_id = lid
        then some month_number else none) ∧
    (t.1.loans ≠ [] → (∀ l ∈ t.1.loans, l.remaining_balance = 0) →
      t.1.plan.is_active = false) := by
  cases hfind : s.loans.find? (fun l => l.lid == lid) with
  | none =>
    unfold record_payment at h
    simp only [hfind] at h
    exact absurd h (by simp)
  | some loan =>
    unfold record_payment at h
    simp only [hfind] at h
    by_cases h1 : amount ≤ 0
    · rw [if_pos h1] at h
      exact absurd h (by simp)
    · rw [if_neg h1] at h
      by_cases h2 : maxMonth s.schedule < month_number
      · rw [if_pos h2] at h
        exact absurd h (by simp)
      · rw [if_neg h2] at h
        by_cases h3 : amount < interestCharge loan.remaining_balance loan.interest_rate
        · rw [if_pos h3] at h
          exact absurd h (by simp)
        · rw [if_neg h3] at h
          by_cases h4 : loan.remaining_balance
              + interestCharge loan.remaining_balance loan.interest_rate < amount
          · rw [if_pos h4] at h
            exact absurd h (by simp)
          · rw [if_neg h4] at h
            split at h
            · -- recalculation branch
              split at h
              · -- regenerate failed: contradiction
                exact absurd h (by simp)
              · rename_i s3 k hreg
                injection h with h'
                obtain ⟨hframe, -, -, -, -, hnodup3, -⟩ :=
                  regenerate_ok_inv _ month_number (s3, k) hreg
                simp only [recalculate_all_payoff_orders] at hframe hnodup3
                obtain ⟨hc1, hc2, hc3, hc4⟩ := check_if_plan_completed_spec s3
                have ht1sched : t.1.schedule = s3.schedule := by
                  rw [← h']
                  exact hc1
                have ht1loans : t.1.loans = s3.loans := by
                  rw [← h']
                  exact hc2
                have ht1active : t.1.plan.is_active
                    = (check_if_plan_completed s3).1.plan.is_active := by
                  rw [← h']
                refine ⟨?_, ?_, ?_⟩
                · rw [ht1sched]
                  exact hframe
                · rw [← h']
                  simp only []
                  rw [hc1]
                  cases hfind2 : s3.schedule.find? (fun m => m.month_number == month_number) with
                  | none =>
                    simp only [hfind2]
                    rw [if_neg]
                    intro hex
                    rcases hex with ⟨m, hm, hmn, -⟩
                    have := List.find?_eq_none.mp hfind2 m hm
                    simp [hmn] at this
                  | some m =>
                    simp only [hfind2]
                    have hmn : m.month_number = month_number := by
                      have := List.find?_some hfind2
                      simpa using this
                    have hmmem := List.mem_of_find?_eq_some hfind2
                    have hnd3 : (s3.schedule.map (·.month_number)).Nodup := hnodup3 hnd
                    by_cases hany : m.breakdowns.any (fun b => b.loan_id == lid)
                    · rw [if_pos hany, if_pos]
                      rcases List.any_eq_true.mp hany with ⟨b, hb, hbl⟩
                      exact ⟨m, hmmem, hmn, b, hb, by simpa using hbl⟩
                    · rw [if_neg hany, if_neg]
                      intro hex
                      rcases hex with ⟨m', hm', hm'n, b, hb, hbl⟩
                      have : m' = m := by
                        refine List.inj_on_of_nodup_map hnd3 hm' hmmem ?_
                        rw [hm'n, hmn]
                      subst this
                      exact absurd (List.any_eq_true.mpr ⟨b, hb, by simpa using hbl⟩) hany
                · intro hne hall
                  rw [ht1active]
                  rw [ht1loans] at hne hall
                  exact hc4 hne hall
            · -- no recalculation: contradicts t.2.2 = true
              injection h with h'
              rw [← h'] at hrecalc
              simp at hrecalc

/-- C8 amended witness: the extra payment on `sTenGen` triggers
recalculation and the (empty) set of months before month 1 is
preserved. -/
theorem c8_recalculation_effects_witness :
    rpFlag (record_payment sTenGen 1 20000 1 false) = true ∧
    (rpState sTenGen (record_payment sTenGen 1 20000 1 false)).schedule.filter
        (fun m => m.month_number < 1)
      = sTenGen.schedule.filter (fun m => m.month_number < 1) :=
  ⟨by decide,
    (c8_recalculation_effects sTenGen 1 20000 1 false
      (rpState sTenGen (record_payment sTenGen 1 20000 1 false),
        rpPay (record_payment sTenGen 1 20000 1 false),
        rpFlag (record_payment sTenGen 1 20000 1 false))
      (by decide) (by decide) (by decide)).1⟩
